import Mathlib

/-!
Shallow embedding of `src/libraries/protocol/transaction.cpp` (the graphene
protocol authority/signature verification engine): the `sign_state`
resolution object, the free function `verify_authority`,
`signed_transaction::get_required_signatures`,
`signed_transaction::minimize_required_signatures` and
`transaction::get_required_authorities`.

Machine integers: `authority::weight_threshold` and the running
`total_weight` are `uint32_t` in the source, so the running total is
accumulated modulo 2^32; weights (`uint16_t`) and identifiers are plain
`Nat` data.

Undefined behaviour: `sign_state::signed_by(const address&)`
(transaction.cpp lines 157-168) dereferences `provided_address_sigs->end()`
when the address is found in neither reconciliation table.  Evaluation
outcomes of everything that can reach that line are wrapped in `Option`,
with `none` marking that undefined end-iterator dereference; all other
paths are total.

`flat_map` / `flat_set` containers are embedded as association lists and
duplicate-free lists; the sortedness of the C++ containers only affects
iteration order, which none of the verified statements depend on.
-/

namespace Graphene

/-- Association-list lookup, embedding `map::find` on the C++ side. -/
def lookupMap {α β : Type} [DecidableEq α] : List (α × β) → α → Option β
  | [], _ => none
  | (k, v) :: rest, a => if k = a then some v else lookupMap rest a

/-- Association-list store, embedding `map::operator[] = v`: update the
entry in place when the key is present, append it otherwise. -/
def setMap {α β : Type} [DecidableEq α] : List (α × β) → α → β → List (α × β)
  | [], a, b => [(a, b)]
  | (k, v) :: rest, a, b =>
    if k = a then (k, b) :: rest else (k, v) :: setMap rest a b

/-- Association-list erase, embedding `map::erase(key)` (at most one entry
per key is ever stored). -/
def eraseMap {α β : Type} [DecidableEq α] : List (α × β) → α → List (α × β)
  | [], _ => []
  | (k, v) :: rest, a => if k = a then rest else (k, v) :: eraseMap rest a

/-- Set insertion, embedding `flat_set::insert`: no-op when present. -/
def insertSet {α : Type} [DecidableEq α] (l : List α) (a : α) : List α :=
  if a ∈ l then l else l ++ [a]

/-- Set erasure, embedding `flat_set::erase(value)`. -/
def eraseSet {α : Type} [DecidableEq α] (l : List α) (a : α) : List α :=
  l.filter (fun x => !decide (x = a))

/-- Modelled from the spec: the external config constant
`GRAPHENE_COMMITTEE_ACCOUNT` (the committee account that "may only propose
transactions"); account ids are `Nat`, the constant's concrete value is
immaterial to the verified statements. -/
def GRAPHENE_COMMITTEE_ACCOUNT : Nat := 0

/-- Modelled from the spec: the external config constant
`GRAPHENE_TEMP_ACCOUNT`, the designated "no-signature-needed" account that
the `sign_state` constructor pre-approves. -/
def GRAPHENE_TEMP_ACCOUNT : Nat := 4

/-- Modelled from the spec: a legacy address.  The derivation functions
(`pts_address(key, compressed, version)` and the native `address(key)`
encoding) are external cryptographic collaborators; they are embedded as
injective constructor applications, per the spec's description of the
per-key address variants (two hash-versions x two compression flags, plus
the native encoding inserted by the source). -/
inductive Address where
  | pts (compressed : Bool) (version : Nat) (key : Nat)
  | direct (key : Nat)
deriving DecidableEq

/-- The four `pts_address` variants of a key inserted by
`sign_state::signed_by(address)` (transaction.cpp lines 143-146, 150-153),
in source insertion order. -/
def ptsVariants (k : Nat) : List Address :=
  [Address.pts false 56 k, Address.pts true 56 k,
   Address.pts false 0 k, Address.pts true 0 k]

/-- All address-table entries inserted for one key: the four `pts_address`
variants plus the native `address(key)` encoding (transaction.cpp lines
143-147 and 150-154). -/
def derivedAddrs (k : Nat) : List Address :=
  ptsVariants k ++ [Address.direct k]

/-- Insert the five derived addresses of one key into a reconciliation
table, mirroring the five `operator[]` stores per key in
`sign_state::signed_by(address)`. -/
def insertKeyAddrs (t : List (Address × Nat)) (k : Nat) : List (Address × Nat) :=
  setMap (setMap (setMap (setMap (setMap t
    (Address.pts false 56 k) k)
    (Address.pts true 56 k) k)
    (Address.pts false 0 k) k)
    (Address.pts true 0 k) k)
    (Address.direct k) k

/-- Build one reconciliation table from a key list, mirroring the
table-filling loops of `sign_state::signed_by(address)`. -/
def buildAddrTable (keys : List Nat) : List (Address × Nat) :=
  keys.foldl insertKeyAddrs []

/-- The `authority` data structure (weighted-threshold policy):
`weight_threshold` is `uint32_t`; the three auth maps are `flat_map`s from
public key / address / account id to `uint16_t` weight. -/
structure Authority where
  weight_threshold : Nat
  key_auths : List (Nat × Nat)
  address_auths : List (Address × Nat)
  account_auths : List (Nat × Nat)

/-- The `sign_state` struct (transaction.cpp lines 117-266): the per-call
resolution state.  The accessor callbacks and configuration are the
`const` members bound by the constructor; `provided_signatures`,
`approved_by` and the two lazily built address tables are the mutable
state threaded through every operation. -/
structure SignState where
  get_active : Nat → Option Authority
  get_owner : Nat → Option Authority
  allow_non_immediate_owner : Bool
  max_recursion : Nat
  available_keys : List Nat
  provided_signatures : List (Nat × Bool)
  approved_by : List Nat
  available_address_sigs : Option (List (Address × Nat))
  provided_address_sigs : Option (List (Address × Nat))

/-- The `sign_state` constructor (transaction.cpp lines 240-255): seed
`provided_signatures` with every signature key mapped to `false` and
pre-approve `GRAPHENE_TEMP_ACCOUNT`. -/
def mkSignState (sigs : List Nat) (active owner : Nat → Option Authority)
    (allow_owner : Bool) (max_recursion_depth : Nat) (keys : List Nat) :
    SignState :=
  { get_active := active
    get_owner := owner
    allow_non_immediate_owner := allow_owner
    max_recursion := max_recursion_depth
    available_keys := keys
    provided_signatures := sigs.foldl (fun m k => setMap m k false) []
    approved_by := [GRAPHENE_TEMP_ACCOUNT]
    available_address_sigs := none
    provided_address_sigs := none }

/-- `sign_state::signed_by(const public_key_type&)` (lines 122-133): true
if the key already has a provided signature (marking it consumed — the
C++ `return itr->second = true` yields `true` even when the stored flag
was `false`) or is an available candidate key (inserting it as consumed);
false otherwise, with no state change. -/
def signed_by (s : SignState) (k : Nat) : SignState × Bool :=
  match lookupMap s.provided_signatures k with
  | some _ =>
    ({ s with provided_signatures := setMap s.provided_signatures k true }, true)
  | none =>
    if k ∈ s.available_keys then
      ({ s with provided_signatures := setMap s.provided_signatures k true }, true)
    else (s, false)

/-- The lazy once-per-state build of the two address reconciliation tables
(lines 139-156): on first use, expand every available key and every
provided-signature key into its five derived addresses. -/
def ensureTables (s : SignState) : SignState :=
  match s.available_address_sigs with
  | some _ => s
  | none =>
    { s with
      available_address_sigs := some (buildAddrTable s.available_keys)
      provided_address_sigs :=
        some (buildAddrTable (s.provided_signatures.map Prod.fst)) }

/-- `sign_state::signed_by(const address&)` (lines 138-169): build the
tables if missing, look the address up in the provided table first, fall
back to the available table (requiring the key to still be an available
candidate).  When the address is in neither table the C++ falls through
to `provided_signatures[itr->second] = true` with `itr` equal to
`provided_address_sigs->end()`: an undefined end-iterator dereference,
embedded as `none`. -/
def signed_by_address (s0 : SignState) (a : Address) :
    Option (SignState × Bool) :=
  let s := ensureTables s0
  match lookupMap (s.provided_address_sigs.getD []) a with
  | some k =>
    some ({ s with provided_signatures := setMap s.provided_signatures k true },
          true)
  | none =>
    match lookupMap (s.available_address_sigs.getD []) a with
    | some k =>
      if k ∈ s.available_keys then
        some ({ s with
                 provided_signatures := setMap s.provided_signatures k true },
              true)
      else some (s, false)
    | none => none

/-- The `key_auths` loop of `check_authority` (lines 187-193): accumulate
the weight of every signed-by key, returning early (third component
`true`) the moment the threshold is reached. -/
def key_loop (s : SignState) (thr : Nat) (tw : Nat) :
    List (Nat × Nat) → SignState × Nat × Bool
  | [] => (s, tw, false)
  | (k, w) :: rest =>
    match signed_by s k with
    | (s1, true) =>
      if thr ≤ (tw + w) % 4294967296 then (s1, (tw + w) % 4294967296, true)
      else key_loop s1 thr ((tw + w) % 4294967296) rest
    | (s1, false) => key_loop s1 thr tw rest

/-- The `address_auths` loop of `check_authority` (lines 195-201); each
membership test may hit the undefined dereference of
`signed_by_address`. -/
def addr_loop (s : SignState) (thr : Nat) (tw : Nat) :
    List (Address × Nat) → Option (SignState × Nat × Bool)
  | [] => some (s, tw, false)
  | (a, w) :: rest =>
    match signed_by_address s a with
    | none => none
    | some (s1, true) =>
      if thr ≤ (tw + w) % 4294967296 then some (s1, (tw + w) % 4294967296, true)
      else addr_loop s1 thr ((tw + w) % 4294967296) rest
    | some (s1, false) => addr_loop s1 thr tw rest

/-- The `account_auths` loop of `check_authority` (lines 203-224): an
already-approved delegate contributes its weight directly; otherwise the
delegate is checked one level deeper via the `check` callback — memoizing
it into `approved_by` and adding its weight on success — or, when
`check = none` (the C++ `depth == max_recursion` test), it is silently
skipped.  The delegate's active authority is tried first, then — when
`allow_non_immediate_owner` is set — its owner authority. -/
def account_loop
    (check : Option (SignState → Option Authority → Option (SignState × Bool)))
    (s : SignState) (thr : Nat) (tw : Nat) :
    List (Nat × Nat) → Option (SignState × Nat × Bool)
  | [] => some (s, tw, false)
  | (a, w) :: rest =>
    if a ∈ s.approved_by then
      if thr ≤ (tw + w) % 4294967296 then some (s, (tw + w) % 4294967296, true)
      else account_loop check s thr ((tw + w) % 4294967296) rest
    else
      match check with
      | none => account_loop none s thr tw rest
      | some chk =>
        match chk s (s.get_active a) with
        | none => none
        | some (sA, true) =>
          if thr ≤ (tw + w) % 4294967296 then
            some ({ sA with approved_by := insertSet sA.approved_by a },
              (tw + w) % 4294967296, true)
          else
            account_loop (some chk)
              { sA with approved_by := insertSet sA.approved_by a } thr
              ((tw + w) % 4294967296) rest
        | some (sA, false) =>
          if sA.allow_non_immediate_owner then
            match chk sA (sA.get_owner a) with
            | none => none
            | some (sO, true) =>
              if thr ≤ (tw + w) % 4294967296 then
                some ({ sO with approved_by := insertSet sO.approved_by a },
                  (tw + w) % 4294967296, true)
              else
                account_loop (some chk)
                  { sO with approved_by := insertSet sO.approved_by a } thr
                  ((tw + w) % 4294967296) rest
            | some (sO, false) => account_loop (some chk) sO thr tw rest
          else account_loop (some chk) sA thr tw rest

/-- The body of `sign_state::check_authority(const authority*, ...)`
(lines 181-226) for one recursion level: run the three weight loops with
early exit at the threshold, finishing with `total_weight >=
weight_threshold`; `deeper` is the depth+1 check handed to the account
loop (`none` once the recursion bound is reached).  A null authority
pointer is `none` and yields `false`. -/
def checkAuthorityCore
    (deeper : Option (SignState → Option Authority → Option (SignState × Bool)))
    (s : SignState) (au : Option Authority) : Option (SignState × Bool) :=
  match au with
  | none => some (s, false)
  | some auth =>
    match key_loop s auth.weight_threshold 0 auth.key_auths with
    | (s1, _, true) => some (s1, true)
    | (s1, tw1, false) =>
      match addr_loop s1 auth.weight_threshold tw1 auth.address_auths with
      | none => none
      | some (s2, _, true) => some (s2, true)
      | some (s2, tw2, false) =>
        match account_loop deeper s2 auth.weight_threshold tw2
            auth.account_auths with
        | none => none
        | some (s3, _, true) => some (s3, true)
        | some (s3, tw3, false) =>
          some (s3, decide (auth.weight_threshold ≤ tw3))

/-- `sign_state::check_authority(const authority*, uint32_t depth)`
(lines 181-226).  The C++ recursion is bounded by the test
`depth == max_recursion`; here `fuel = max_recursion - depth` is the
structural recursion argument (every entry point passes
`fuel = max_recursion` for `depth = 0`), so `fuel = 0` — a `none` deeper
check — is exactly the `depth == max_recursion` skip of delegate
accounts. -/
def check_authority : Nat → SignState → Option Authority →
    Option (SignState × Bool)
  | 0, s, au => checkAuthorityCore none s au
  | f + 1, s, au => checkAuthorityCore (some (check_authority f)) s au

/-- `sign_state::check_authority(account_id_type)` (lines 171-175): true
immediately for an already-approved account (no state change, no
accessor call); otherwise check the account's active authority and — when
`allow_non_immediate_owner` holds — its owner authority, both at depth 0.
This form does not memoize into `approved_by`. -/
def check_authority_acct (s : SignState) (id : Nat) :
    Option (SignState × Bool) :=
  if id ∈ s.approved_by then some (s, true)
  else
    match check_authority s.max_recursion s (s.get_active id) with
    | none => none
    | some (s1, true) => some (s1, true)
    | some (s1, false) =>
      if s1.allow_non_immediate_owner then
        check_authority s1.max_recursion s1 (s1.get_owner id)
      else some (s1, false)

/-- `sign_state::remove_unused_signatures` (lines 228-238): erase every
provided-signature entry still flagged `false`, returning whether any
entry was removed. -/
def remove_unused_signatures (s : SignState) : SignState × Bool :=
  let remove_sigs :=
    ((s.provided_signatures.filter (fun p => !p.2)).map Prod.fst)
  ({ s with provided_signatures :=
      remove_sigs.foldl eraseMap s.provided_signatures },
   decide (remove_sigs.length ≠ 0))

/-- Modelled from the spec: an operation, represented by the output of the
external per-operation-type contract `operation_get_required_authorities`
(the "operation-required-authorities deriver" of spec section 6) — the
required-active accounts, required-owner accounts and embedded "other"
authorities it contributes. -/
structure Op where
  reqActive : List Nat
  reqOwner : List Nat
  reqOther : List Authority

/-- `transaction::get_required_authorities` (transaction.cpp lines
103-112): accumulate every operation's required active/owner accounts and
embedded authorities into the caller's sets, then erase every
required-owner account from the required-active set. -/
def get_required_authorities (ops : List Op) (active0 owner0 : List Nat)
    (other0 : List Authority) : List Nat × List Nat × List Authority :=
  let acc := ops.foldl
    (fun t op =>
      (op.reqActive.foldl insertSet t.1,
       op.reqOwner.foldl insertSet t.2.1,
       t.2.2 ++ op.reqOther))
    (active0, owner0, other0)
  (acc.2.1.foldl eraseSet acc.1, acc.2.1, acc.2.2)

/-- The error taxonomy raised by `verify_authority` (the `GRAPHENE_ASSERT`
exception kinds of transaction.cpp lines 317-346). -/
inductive AuthErr where
  | invalidCommitteeApproval
  | missingOtherAuth
  | missingOwnerAuth
  | missingActiveAuth
  | irrelevantSig
deriving DecidableEq

/-- The inner loop of `approved_by_custom_authority` (lines 292-299): try
each viable custom authority in turn until one is satisfied by the
current state. -/
def custom_loop (s : SignState) : List Authority → Option (SignState × Bool)
  | [] => some (s, false)
  | auth :: rest =>
    match check_authority s.max_recursion s (some auth) with
    | none => none
    | some (s1, true) => some (s1, true)
    | some (s1, false) => custom_loop s1 rest

/-- The erase-while loop of lines 306-312: drop every operation-required
active account that a custom authority approves, keeping the rest in
order; the resolution state is threaded through each (possibly failing,
still signature-consuming) custom-authority attempt. -/
def filter_custom (get_custom : Nat → Op → List Authority) (op : Op)
    (s : SignState) : List Nat → Option (SignState × List Nat)
  | [] => some (s, [])
  | a :: rest =>
    match custom_loop s (get_custom a op) with
    | none => none
    | some (s1, true) => filter_custom get_custom op s1 rest
    | some (s1, false) =>
      match filter_custom get_custom op s1 rest with
      | none => none
      | some (s2, kept) => some (s2, a :: kept)

/-- The per-operation requirement-gathering loop of `verify_authority`
(lines 301-315): derive each operation's requirements, filter its
required-active accounts through the custom-authority hook, and
accumulate the shared required-active / required-owner / other sets. -/
def ops_loop (get_custom : Nat → Op → List Authority) (s : SignState)
    (ra ro : List Nat) (ot : List Authority) :
    List Op → Option (SignState × List Nat × List Nat × List Authority)
  | [] => some (s, ra, ro, ot)
  | op :: rest =>
    let opActive := op.reqActive.foldl insertSet []
    let ro1 := op.reqOwner.foldl insertSet ro
    let ot1 := ot ++ op.reqOther
    match filter_custom get_custom op s opActive with
    | none => none
    | some (s1, kept) =>
      ops_loop get_custom s1 (kept.foldl insertSet ra) ro1 ot1 rest

/-- The "other" authority loop of `verify_authority` (lines 321-324):
every embedded authority must be satisfied directly. -/
def other_loop (s : SignState) :
    List Authority → Option (Except AuthErr SignState)
  | [] => some (Except.ok s)
  | auth :: rest =>
    match check_authority s.max_recursion s (some auth) with
    | none => none
    | some (s1, true) => other_loop s1 rest
    | some (_, false) => some (Except.error AuthErr.missingOtherAuth)

/-- The required-owner loop of `verify_authority` (lines 327-332): each
account must be pre-approved at owner level or have its owner authority
satisfied. -/
def owner_loop (owner_approvals : List Nat) (s : SignState) :
    List Nat → Option (Except AuthErr SignState)
  | [] => some (Except.ok s)
  | id :: rest =>
    if id ∈ owner_approvals then owner_loop owner_approvals s rest
    else
      match check_authority s.max_recursion s (s.get_owner id) with
      | none => none
      | some (s1, true) => owner_loop owner_approvals s1 rest
      | some (_, false) => some (Except.error AuthErr.missingOwnerAuth)

/-- The required-active loop of `verify_authority` (lines 334-340): each
account must pass the account-id check or, as a fallback, its owner
authority. -/
def active_loop (s : SignState) :
    List Nat → Option (Except AuthErr SignState)
  | [] => some (Except.ok s)
  | id :: rest =>
    match check_authority_acct s id with
    | none => none
    | some (s1, true) => active_loop s1 rest
    | some (s1, false) =>
      match check_authority s1.max_recursion s1 (s1.get_owner id) with
      | none => none
      | some (s2, true) => active_loop s2 rest
      | some (_, false) => some (Except.error AuthErr.missingActiveAuth)

/-- Everything `verify_authority` (transaction.cpp lines 269-341) does
before its final irrelevant-signature check: build the state, pre-approve
the caller-supplied accounts, gather and custom-filter the requirements,
run the committee check and the three requirement loops.  On success the
final resolution state is returned for the last check. -/
def verifyStages (ops : List Op) (sigs : List Nat)
    (get_active get_owner : Nat → Option Authority)
    (get_custom : Nat → Op → List Authority)
    (allow_non_immediate_owner : Bool) (max_recursion_depth : Nat)
    (allow_committee : Bool) (active_approvals owner_approvals : List Nat) :
    Option (Except AuthErr SignState) :=
  let s0 := mkSignState sigs get_active get_owner allow_non_immediate_owner
    max_recursion_depth []
  let ap := owner_approvals.foldl insertSet
    (active_approvals.foldl insertSet s0.approved_by)
  let s1 := { s0 with approved_by := ap }
  match ops_loop get_custom s1 [] [] [] ops with
  | none => none
  | some (s2, required_active, required_owner, other) =>
    if allow_committee = false ∧ GRAPHENE_COMMITTEE_ACCOUNT ∈ required_active then
      some (Except.error AuthErr.invalidCommitteeApproval)
    else
      match other_loop s2 other with
      | none => none
      | some (Except.error e) => some (Except.error e)
      | some (Except.ok s3) =>
        match owner_loop owner_approvals s3 required_owner with
        | none => none
        | some (Except.error e) => some (Except.error e)
        | some (Except.ok s4) =>
          match active_loop s4 required_active with
          | none => none
          | some (Except.error e) => some (Except.error e)
          | some (Except.ok s5) => some (Except.ok s5)

/-- The free function `verify_authority` (transaction.cpp lines 269-347):
run all requirement checks, then fail with the irrelevant-signature error
when `remove_unused_signatures` removed anything (line 342-346); a fully
successful run returns unit. -/
def verify_authority (ops : List Op) (sigs : List Nat)
    (get_active get_owner : Nat → Option Authority)
    (get_custom : Nat → Op → List Authority)
    (allow_non_immediate_owner : Bool) (max_recursion_depth : Nat)
    (allow_committee : Bool) (active_approvals owner_approvals : List Nat) :
    Option (Except AuthErr Unit) :=
  match verifyStages ops sigs get_active get_owner get_custom
      allow_non_immediate_owner max_recursion_depth allow_committee
      active_approvals owner_approvals with
  | none => none
  | some (Except.error e) => some (Except.error e)
  | some (Except.ok s) =>
    if (remove_unused_signatures s).2 = true then
      some (Except.error AuthErr.irrelevantSig)
    else some (Except.ok ())

/-- The "other" loop of `get_required_signatures` (line 382-383): results
are discarded, only the state threading matters. -/
def grs_other_loop (s : SignState) : List Authority → Option SignState
  | [] => some s
  | auth :: rest =>
    match check_authority s.max_recursion s (some auth) with
    | none => none
    | some (s1, _) => grs_other_loop s1 rest

/-- The required-owner loop of `get_required_signatures` (lines 384-385). -/
def grs_owner_loop (s : SignState) : List Nat → Option SignState
  | [] => some s
  | id :: rest =>
    match check_authority s.max_recursion s (s.get_owner id) with
    | none => none
    | some (s1, _) => grs_owner_loop s1 rest

/-- The required-active loop of `get_required_signatures` (lines 386-387):
the owner fallback is short-circuited away when the account check
succeeds. -/
def grs_active_loop (s : SignState) : List Nat → Option SignState
  | [] => some s
  | id :: rest =>
    match check_authority_acct s id with
    | none => none
    | some (s1, true) => grs_active_loop s1 rest
    | some (s1, false) =>
      match check_authority s1.max_recursion s1 (s1.get_owner id) with
      | none => none
      | some (s2, _) => grs_active_loop s2 rest

/-- `signed_transaction::get_required_signatures` (transaction.cpp lines
366-399): run the resolution search seeded with the transaction's
signature keys and the wallet's available keys, drop unused signatures,
and return every provided key that is an available key but not an actual
signature key.  The signature keys are recovered by the external
`get_signature_keys` primitive and are passed in directly. -/
def get_required_signatures (ops : List Op)
    (signature_keys available_keys : List Nat)
    (get_active get_owner : Nat → Option Authority)
    (allow_non_immediate_owner : Bool) (max_recursion_depth : Nat) :
    Option (List Nat) :=
  match get_required_authorities ops [] [] [] with
  | (required_active, required_owner, other) =>
    let s := mkSignState signature_keys get_active get_owner
      allow_non_immediate_owner max_recursion_depth available_keys
    match grs_other_loop s other with
    | none => none
    | some s1 =>
      match grs_owner_loop s1 required_owner with
      | none => none
      | some s2 =>
        match grs_active_loop s2 required_active with
        | none => none
        | some s3 =>
          let s4 := (remove_unused_signatures s3).1
          some ((s4.provided_signatures.map Prod.fst).filter
            (fun k => decide (k ∈ available_keys ∧ k ∉ signature_keys)))

/-- The greedy removal loop of `minimize_required_signatures` (lines
416-430): tentatively erase each candidate key and re-run full
`verify_authority`; a successful re-verification keeps the key removed, a
missing-other/owner/active failure restores it (the three `catch`
clauses), and any other exception propagates out of the loop. -/
def minimize_loop (ops : List Op)
    (get_active get_owner : Nat → Option Authority)
    (get_custom : Nat → Op → List Authority)
    (allow_non_immediate_owner : Bool) (max_recursion_depth : Nat) :
    List Nat → List Nat → Option (Except AuthErr (List Nat))
  | [], result => some (Except.ok result)
  | k :: rest, result =>
    match verify_authority ops (eraseSet result k) get_active get_owner
        get_custom allow_non_immediate_owner max_recursion_depth
        false [] [] with
    | none => none
    | some (Except.ok _) =>
      minimize_loop ops get_active get_owner get_custom
        allow_non_immediate_owner max_recursion_depth rest
        (eraseSet result k)
    | some (Except.error e) =>
      if e = AuthErr.missingOtherAuth ∨ e = AuthErr.missingOwnerAuth ∨
          e = AuthErr.missingActiveAuth then
        minimize_loop ops get_active get_owner get_custom
          allow_non_immediate_owner max_recursion_depth rest
          (insertSet (eraseSet result k) k)
      else some (Except.error e)

/-- `signed_transaction::minimize_required_signatures` (transaction.cpp
lines 401-432): start from `get_required_signatures` and greedily try to
remove each candidate in turn. -/
def minimize_required_signatures (ops : List Op)
    (signature_keys available_keys : List Nat)
    (get_active get_owner : Nat → Option Authority)
    (get_custom : Nat → Op → List Authority)
    (allow_non_immediate_owner : Bool) (max_recursion_depth : Nat) :
    Option (Except AuthErr (List Nat)) :=
  match get_required_signatures ops signature_keys available_keys
      get_active get_owner allow_non_immediate_owner max_recursion_depth with
  | none => none
  | some s =>
    minimize_loop ops get_active get_owner get_custom
      allow_non_immediate_owner max_recursion_depth s s

/-- An accessor resolving no account at all (`nullptr` everywhere). -/
def noAuth : Nat → Option Authority := fun _ => none

/-- A custom-authority lookup offering no custom authorities. -/
def noCustom : Nat → Op → List Authority := fun _ _ => []

/-! ### Association list and set lemmas -/

theorem lookup_setMap {α β : Type} [DecidableEq α] (t : List (α × β))
    (k : α) (v : β) (a : α) :
    lookupMap (setMap t k v) a = if k = a then some v else lookupMap t a := by
  induction t with
  | nil => simp [setMap, lookupMap]
  | cons p rest ih =>
    obtain ⟨k0, v0⟩ := p
    by_cases h : k0 = k
    · subst h
      simp only [setMap, if_pos rfl, lookupMap]
      split_ifs <;> rfl
    · simp only [setMap, if_neg h, lookupMap, ih]
      by_cases h2 : k0 = a
      · subst h2
        have : ¬k = k0 := fun hk => h hk.symm
        simp [this]
      · simp [h2]

theorem mem_eraseSet {α : Type} [DecidableEq α] {x y : α} {l : List α}
    (h : x ∈ eraseSet l y) : x ∈ l := by
  simp only [eraseSet, List.mem_filter] at h
  exact h.1

theorem not_mem_eraseSet_self {α : Type} [DecidableEq α] (l : List α) (x : α) :
    x ∉ eraseSet l x := by
  simp [eraseSet]

theorem not_mem_foldl_eraseSet {α : Type} [DecidableEq α] (o : List α) :
    ∀ (l : List α) (x : α), x ∉ l → x ∉ o.foldl eraseSet l := by
  induction o with
  | nil => intro l x h; exact h
  | cons y rest ih =>
    intro l x h
    exact ih (eraseSet l y) x (fun hx => h (mem_eraseSet hx))

theorem not_mem_foldl_eraseSet_of_mem {α : Type} [DecidableEq α] (o : List α) :
    ∀ (a : List α) (x : α), x ∈ o → x ∉ o.foldl eraseSet a := by
  induction o with
  | nil => intro a x h; cases h
  | cons y rest ih =>
    intro a x h
    rw [List.foldl_cons]
    rcases List.mem_cons.mp h with h1 | h1
    · subst h1
      by_cases hr : x ∈ rest
      · exact ih (eraseSet a x) x hr
      · exact not_mem_foldl_eraseSet rest (eraseSet a x) x
          (not_mem_eraseSet_self a x)
    · exact ih (eraseSet a y) x h1

theorem subset_insertSet {α : Type} [DecidableEq α] (l : List α) (a : α) :
    l ⊆ insertSet l a := by
  intro x hx
  unfold insertSet
  split
  · exact hx
  · exact List.mem_append.mpr (Or.inl hx)

/-! ### C10 — required owner and active account sets are disjoint -/

/-- C10: after `transaction::get_required_authorities` returns, every
account id in the required-owner set has been erased from the
required-active set, so the two returned account sets are disjoint. -/
theorem get_required_authorities_disjoint (ops : List Op)
    (active0 owner0 : List Nat) (other0 : List Authority) (x : Nat)
    (h : x ∈ (get_required_authorities ops active0 owner0 other0).2.1) :
    x ∉ (get_required_authorities ops active0 owner0 other0).1 := by
  unfold get_required_authorities at h ⊢
  exact not_mem_foldl_eraseSet_of_mem _ _ x h

/-- Witness for C10 at a concrete transaction: one operation requiring
active authority of accounts 5 and 6 and owner authority of 6; account 6
is erased from the returned active set. -/
theorem get_required_authorities_disjoint_witness :
    6 ∈ (get_required_authorities [⟨[5, 6], [6], []⟩] [] [] []).2.1 ∧
    6 ∉ (get_required_authorities [⟨[5, 6], [6], []⟩] [] [] []).1 :=
  ⟨by decide,
   get_required_authorities_disjoint [⟨[5, 6], [6], []⟩] [] [] [] 6 (by decide)⟩

/-! ### C1 — the final irrelevant-signature check of verify_authority -/

theorem remove_unused_flag (s : SignState) :
    (remove_unused_signatures s).2 = true ↔
      ∃ p ∈ s.provided_signatures, p.2 = false := by
  simp only [remove_unused_signatures, decide_eq_true_eq, ne_eq,
    List.length_map]
  constructor
  · intro h
    rcases List.exists_mem_of_length_pos (Nat.pos_of_ne_zero h) with ⟨p, hp⟩
    have := List.mem_filter.mp hp
    exact ⟨p, this.1, by simpa using this.2⟩
  · rintro ⟨p, hmem, hfalse⟩ hlen
    have : p ∈ s.provided_signatures.filter (fun p => !p.2) :=
      List.mem_filter.mpr ⟨hmem, by simp [hfalse]⟩
    rcases List.length_eq_zero.mp hlen with h0
    simp [h0] at this

/-- C1: when every requirement check of `verify_authority` passes, the
outcome is decided by the final `remove_unused_signatures` assertion: if
at least one provided signature key was never marked consumed by any
`signed_by` call the function fails with the irrelevant-signature error,
and when every provided key was consumed it returns successfully with no
error. -/
theorem verify_authority_irrelevant_signature (ops : List Op)
    (sigs : List Nat) (ga go : Nat → Option Authority)
    (gc : Nat → Op → List Authority) (aw : Bool) (mr : Nat) (ac : Bool)
    (aa oa : List Nat) (s : SignState)
    (h : verifyStages ops sigs ga go gc aw mr ac aa oa = some (Except.ok s)) :
    ((∃ p ∈ s.provided_signatures, p.2 = false) →
       verify_authority ops sigs ga go gc aw mr ac aa oa =
         some (Except.error AuthErr.irrelevantSig)) ∧
    ((∀ p ∈ s.provided_signatures, p.2 = true) →
       verify_authority ops sigs ga go gc aw mr ac aa oa =
         some (Except.ok ())) := by
  unfold verify_authority
  rw [h]
  constructor
  · intro hex
    show (if (remove_unused_signatures s).2 = true then
        some (Except.error AuthErr.irrelevantSig)
      else some (Except.ok ())) = _
    rw [if_pos ((remove_unused_flag s).mpr hex)]
  · intro hall
    show (if (remove_unused_signatures s).2 = true then
        some (Except.error AuthErr.irrelevantSig)
      else some (Except.ok ())) = _
    rw [if_neg]
    intro hflag
    rcases (remove_unused_flag s).mp hflag with ⟨p, hmem, hfalse⟩
    rw [hall p hmem] at hfalse
    cases hfalse

/-- The account-7 active authority used by the C1 witness scenarios:
threshold 1, key 1 with weight 1. -/
def c1act : Nat → Option Authority := fun i =>
  if i = 7 then some ⟨1, [(1, 1)], [], []⟩ else none

/-- One operation requiring the active authority of account 7. -/
def c1op : Op := ⟨[7], [], []⟩

/-- The resolution state left by the requirement stages of the C1 witness
run signed with keys 1 and 2: key 1 consumed, key 2 untouched. -/
def c1state : SignState :=
  { get_active := c1act
    get_owner := noAuth
    allow_non_immediate_owner := true
    max_recursion := 2
    available_keys := []
    provided_signatures := [(1, true), (2, false)]
    approved_by := [4]
    available_address_sigs := none
    provided_address_sigs := none }

/-- Witness for C1: signing the account-7 operation with keys 1 and 2
leaves key 2 unconsumed, and `verify_authority` fails with the
irrelevant-signature error. -/
theorem verify_authority_irrelevant_signature_witness :
    verify_authority [c1op] [1, 2] c1act noAuth noCustom true 2 false [] [] =
      some (Except.error AuthErr.irrelevantSig) :=
  (verify_authority_irrelevant_signature [c1op] [1, 2] c1act noAuth noCustom
      true 2 false [] [] c1state (by rfl)).1
    ⟨(2, false), by decide, rfl⟩

/-! ### C9 — verify_authority is deterministic in its inputs -/

/-- C9: with pure, stable accessor callbacks (pointwise-equal functions),
two invocations of `verify_authority` on identical inputs yield the same
outcome — both succeed or both fail with the same error kind.  No input
structure is part of the returned value, and the embedding threads all
mutation through the per-call `SignState`, so the result is a function of
the inputs alone. -/
theorem verify_authority_deterministic (ops : List Op) (sigs : List Nat)
    (ga1 ga2 go1 go2 : Nat → Option Authority)
    (gc1 gc2 : Nat → Op → List Authority) (aw : Bool) (mr : Nat) (ac : Bool)
    (aa oa : List Nat)
    (hA : ∀ i, ga1 i = ga2 i) (hO : ∀ i, go1 i = go2 i)
    (hC : ∀ i op, gc1 i op = gc2 i op) :
    verify_authority ops sigs ga1 go1 gc1 aw mr ac aa oa =
      verify_authority ops sigs ga2 go2 gc2 aw mr ac aa oa := by
  have h1 : ga1 = ga2 := funext hA
  have h2 : go1 = go2 := funext hO
  have h3 : gc1 = gc2 := funext fun i => funext fun op => hC i op
  rw [h1, h2, h3]

/-- Witness for C9: two runs of the C1 single-key scenario agree. -/
theorem verify_authority_deterministic_witness :
    verify_authority [c1op] [1] c1act noAuth noCustom true 2 false [] [] =
      verify_authority [c1op] [1] c1act noAuth noCustom true 2 false [] [] :=
  verify_authority_deterministic [c1op] [1] c1act c1act noAuth noAuth
    noCustom noCustom true 2 false [] []
    (fun _ => rfl) (fun _ => rfl) (fun _ _ => rfl)

/-! ### C4 — the minimizer restores a key only on missing-authority errors -/

/-- C4 (amended): one step of the greedy loop of
`minimize_required_signatures`.  When re-verification of the reduced key
set succeeds the key stays removed; when it fails with one of the three
missing-authority kinds (the three `catch` clauses) the key is restored
and the loop continues; any other error — irrelevant-signature or
committee — propagates out of the minimizer instead of being tolerated. -/
theorem minimize_loop_restores_only_missing_auth (ops : List Op)
    (ga go : Nat → Option Authority) (gc : Nat → Op → List Authority)
    (aw : Bool) (mr : Nat) (k : Nat) (rest result : List Nat) :
    (verify_authority ops (eraseSet result k) ga go gc aw mr false [] [] =
        some (Except.ok ()) →
      minimize_loop ops ga go gc aw mr (k :: rest) result =
        minimize_loop ops ga go gc aw mr rest (eraseSet result k)) ∧
    (∀ e, verify_authority ops (eraseSet result k) ga go gc aw mr false [] [] =
        some (Except.error e) →
      ((e = AuthErr.missingOtherAuth ∨ e = AuthErr.missingOwnerAuth ∨
          e = AuthErr.missingActiveAuth) →
        minimize_loop ops ga go gc aw mr (k :: rest) result =
          minimize_loop ops ga go gc aw mr rest
            (insertSet (eraseSet result k) k)) ∧
      ((e = AuthErr.irrelevantSig ∨ e = AuthErr.invalidCommitteeApproval) →
        minimize_loop ops ga go gc aw mr (k :: rest) result =
          some (Except.error e))) := by
  constructor
  · intro h
    conv_lhs => rw [minimize_loop]
    rw [h]
  · intro e he
    constructor
    · intro hk
      conv_lhs => rw [minimize_loop]
      rw [he]
      show (if e = AuthErr.missingOtherAuth ∨ e = AuthErr.missingOwnerAuth ∨
          e = AuthErr.missingActiveAuth then _ else _) = _
      rw [if_pos hk]
    · intro ho
      conv_lhs => rw [minimize_loop]
      rw [he]
      show (if e = AuthErr.missingOtherAuth ∨ e = AuthErr.missingOwnerAuth ∨
          e = AuthErr.missingActiveAuth then _ else _) = _
      rw [if_neg]
      rcases ho with h1 | h1 <;> subst h1 <;> decide

/-- Counterexample for C4 as stated: an operation requiring the active
authority of the committee account.  The re-run of `verify_authority`
inside the minimizer fails (committee approval is disallowed there), and
instead of restoring the key and returning normally,
`minimize_required_signatures` propagates the error. -/
theorem minimize_required_signatures_propagates_error :
    minimize_required_signatures [⟨[GRAPHENE_COMMITTEE_ACCOUNT], [], []⟩] [] [1]
        (fun i => if i = 0 then some ⟨1, [(1, 1)], [], []⟩ else none)
        noAuth noCustom true 2 =
      some (Except.error AuthErr.invalidCommitteeApproval) := by rfl

/-- Witness for C4's amended step theorem: removing the only key of the
account-7 scenario makes re-verification fail with the
missing-active-authority error, so the key is restored and the loop
continues. -/
theorem minimize_loop_restores_only_missing_auth_witness :
    minimize_loop [c1op] c1act noAuth noCustom true 2 [1] [1] =
      minimize_loop [c1op] c1act noAuth noCustom true 2 []
        (insertSet (eraseSet [1] 1) 1) :=
  ((minimize_loop_restores_only_missing_auth [c1op] c1act noAuth noCustom
      true 2 1 [] [1]).2 AuthErr.missingActiveAuth (by rfl)).1
    (Or.inr (Or.inr rfl))

/-! ### C7 — the address reconciliation tables -/

/-- The key every derived address of a key points back to. -/
def addrKey : Address → Nat
  | Address.pts _ _ k => k
  | Address.direct k => k

theorem addrKey_of_mem_derived {a : Address} {k : Nat}
    (h : a ∈ derivedAddrs k) : addrKey a = k := by
  simp only [derivedAddrs, ptsVariants, List.mem_append, List.mem_cons,
    List.mem_singleton, List.not_mem_nil, or_false] at h
  rcases h with (h | h | h | h) | h <;> subst h <;> rfl

theorem lookup_insertKeyAddrs (t : List (Address × Nat)) (k : Nat)
    (a : Address) :
    lookupMap (insertKeyAddrs t k) a =
      if a ∈ derivedAddrs k then some k else lookupMap t a := by
  unfold insertKeyAddrs
  rw [lookup_setMap, lookup_setMap, lookup_setMap, lookup_setMap,
    lookup_setMap]
  simp only [derivedAddrs, ptsVariants, List.mem_append, List.mem_cons,
    List.mem_singleton, List.not_mem_nil, or_false]
  split_ifs with h1 h2 h3 h4 h5 h6 <;> first
    | rfl
    | (exfalso; simp_all [eq_comm])

theorem lookup_foldl_insertKeyAddrs (ks : List Nat) :
    ∀ (t : List (Address × Nat)) (a : Address) (k : Nat),
    lookupMap (ks.foldl insertKeyAddrs t) a = some k ↔
      ((k ∈ ks ∧ a ∈ derivedAddrs k) ∨
       (lookupMap t a = some k ∧ ∀ k1 ∈ ks, a ∉ derivedAddrs k1)) := by
  induction ks with
  | nil => intro t a k; simp
  | cons h0 rest ih =>
    intro t a k
    rw [List.foldl_cons, ih, lookup_insertKeyAddrs]
    by_cases hmem : a ∈ derivedAddrs h0
    · rw [if_pos hmem]
      have hk0 : addrKey a = h0 := addrKey_of_mem_derived hmem
      constructor
      · rintro (⟨hkr, hda⟩ | ⟨hsome, hnr⟩)
        · exact Or.inl ⟨List.mem_cons_of_mem _ hkr, hda⟩
        · have : h0 = k := Option.some.inj hsome
          subst this
          exact Or.inl ⟨List.mem_cons_self _ _, hmem⟩
      · rintro (⟨hkr, hda⟩ | ⟨hsome, hnr⟩)
        · have hka : addrKey a = k := addrKey_of_mem_derived hda
          rcases List.mem_cons.mp hkr with h1 | h1
          · subst h1
            by_cases h2 : k ∈ rest
            · exact Or.inl ⟨h2, hda⟩
            · refine Or.inr ⟨rfl, fun k1 hk1 hda1 => ?_⟩
              have h3 : addrKey a = k1 := addrKey_of_mem_derived hda1
              exact h2 (by rw [← hka, h3]; exact hk1)
          · exact Or.inl ⟨h1, hda⟩
        · exact absurd hmem (hnr h0 (List.mem_cons_self _ _))
    · rw [if_neg hmem]
      constructor
      · rintro (⟨hkr, hda⟩ | ⟨hsome, hnr⟩)
        · exact Or.inl ⟨List.mem_cons_of_mem _ hkr, hda⟩
        · refine Or.inr ⟨hsome, fun k1 hk1 => ?_⟩
          rcases List.mem_cons.mp hk1 with h1 | h1
          · subst h1; exact hmem
          · exact hnr k1 h1
      · rintro (⟨hkr, hda⟩ | ⟨hsome, hnr⟩)
        · rcases List.mem_cons.mp hkr with h1 | h1
          · subst h1; exact absurd hda hmem
          · exact Or.inl ⟨h1, hda⟩
        · exact Or.inr ⟨hsome, fun k1 hk1 => hnr k1 (List.mem_cons_of_mem _ hk1)⟩

theorem lookup_buildAddrTable (ks : List Nat) (a : Address) (k : Nat) :
    lookupMap (buildAddrTable ks) a = some k ↔
      (k ∈ ks ∧ a ∈ derivedAddrs k) := by
  unfold buildAddrTable
  rw [lookup_foldl_insertKeyAddrs]
  simp [lookupMap]

/-- C7 (amended): each reconciliation table holds exactly five derived
address entries per key — the four `pts_address` variants plus the native
`address(key)` encoding — a table lookup succeeds exactly on one of those
five addresses of one of its keys, and `signed_by(address)` (with the
tables not yet built) succeeds exactly when the address is a derived
address of a provided-signature key or of an available candidate key. -/
theorem address_table_characterization :
    (∀ k, (derivedAddrs k).length = 5) ∧
    (∀ (ks : List Nat) (a : Address) (k : Nat),
      lookupMap (buildAddrTable ks) a = some k ↔
        (k ∈ ks ∧ a ∈ derivedAddrs k)) ∧
    (∀ (s : SignState) (a : Address),
      s.available_address_sigs = none →
      ((∃ s1, signed_by_address s a = some (s1, true)) ↔
        ((∃ k ∈ s.provided_signatures.map Prod.fst, a ∈ derivedAddrs k) ∨
         (∃ k ∈ s.available_keys, a ∈ derivedAddrs k)))) := by
  refine ⟨fun k => rfl, lookup_buildAddrTable, ?_⟩
  intro s a h
  unfold signed_by_address
  simp only [ensureTables, h]
  cases hp : lookupMap (buildAddrTable (s.provided_signatures.map Prod.fst)) a with
  | some k =>
    simp only [Option.getD_some, hp]
    constructor
    · intro _
      exact Or.inl ⟨k, (lookup_buildAddrTable _ a k).mp hp⟩
    · intro _
      exact ⟨_, rfl⟩
  | none =>
    simp only [Option.getD_some, hp]
    cases ha : lookupMap (buildAddrTable s.available_keys) a with
    | some k =>
      have hk := (lookup_buildAddrTable _ a k).mp ha
      simp only [ha, if_pos hk.1]
      constructor
      · intro _
        exact Or.inr ⟨k, hk⟩
      · intro _
        exact ⟨_, rfl⟩
    | none =>
      simp only [ha]
      constructor
      · rintro ⟨s1, hs1⟩
        cases hs1
      · rintro (⟨k, hk, hda⟩ | ⟨k, hk, hda⟩)
        · exact absurd ((lookup_buildAddrTable _ a k).mpr ⟨hk, hda⟩)
            (by simp [hp])
        · exact absurd ((lookup_buildAddrTable _ a k).mpr ⟨hk, hda⟩)
            (by simp [ha])

/-- Counterexample for C7 as stated: the table built for the single key 0
has five entries, not four, and the native address encoding of key 0 is
matched by the table although it is not one of the four
compressed/version `pts_address` variants. -/
theorem address_table_counterexample :
    (buildAddrTable [0]).length = 5 ∧
    lookupMap (buildAddrTable [0]) (Address.direct 0) = some 0 ∧
    Address.direct 0 ∉ ptsVariants 0 := by
  refine ⟨rfl, rfl, by decide⟩

/-- Witness for C7's amended characterization: the native address of key
3 resolves to key 3 in the table built for keys [3, 8]. -/
theorem address_table_characterization_witness :
    lookupMap (buildAddrTable [3, 8]) (Address.direct 3) = some 3 :=
  (address_table_characterization.2.1 [3, 8] (Address.direct 3) 3).mpr
    ⟨by decide, by decide⟩

/-! ### C3 — the unresolved-address path of signed_by(address) -/

/-- C3: evaluation of `sign_state::signed_by(address)` at an address that
is found in neither reconciliation table — here the fresh state of an
unsigned verification with no available keys, whose tables are both
empty.  The claim (and the spec) say this returns `false` with
`provided_signatures` unchanged, but the source falls through to
`provided_signatures[itr->second] = true` with `itr ==
provided_address_sigs->end()`: an undefined end-iterator dereference,
embedded as `none`. -/
theorem signed_by_address_unresolved_undefined :
    signed_by_address (mkSignState [] noAuth noAuth true 2 [])
      (Address.direct 0) = none := by rfl

/-! ### C5 and C6 — threshold edge cases of check_authority -/

/-- The sum of the weights of one auth map. -/
def wsum {α : Type} (l : List (α × Nat)) : Nat :=
  l.foldr (fun p acc => p.2 + acc) 0

/-- The sum of all weights listed in an authority. -/
def authWeightSum (auth : Authority) : Nat :=
  wsum auth.key_auths + wsum auth.address_auths + wsum auth.account_auths

theorem key_loop_bound (l : List (Nat × Nat)) :
    ∀ (s : SignState) (thr tw : Nat), tw + wsum l < thr →
    ∃ s1 tw1, key_loop s thr tw l = (s1, tw1, false) ∧ tw1 ≤ tw + wsum l := by
  induction l with
  | nil =>
    intro s thr tw _
    exact ⟨s, tw, rfl, Nat.le_add_right _ _⟩
  | cons p rest ih =>
    intro s thr tw h
    obtain ⟨k, w⟩ := p
    have hws : wsum ((k, w) :: rest) = w + wsum rest := rfl
    rw [hws] at h
    rcases hsb : signed_by s k with ⟨s1, b⟩
    cases b with
    | false =>
      rcases ih s1 thr tw (by omega) with ⟨s2, tw2, heq, hle⟩
      refine ⟨s2, tw2, ?_, by rw [hws]; omega⟩
      simp only [key_loop, hsb]
      exact heq
    | true =>
      have hle1 : (tw + w) % 4294967296 ≤ tw + w := Nat.mod_le _ _
      rcases ih s1 thr ((tw + w) % 4294967296) (by omega) with
        ⟨s2, tw2, heq, hle⟩
      refine ⟨s2, tw2, ?_, by rw [hws]; omega⟩
      simp only [key_loop, hsb]
      rw [if_neg (by omega)]
      exact heq

theorem addr_loop_bound (l : List (Address × Nat)) :
    ∀ (s : SignState) (thr tw : Nat), tw + wsum l < thr →
    ∀ s1 tw1 d, addr_loop s thr tw l = some (s1, tw1, d) →
      d = false ∧ tw1 ≤ tw + wsum l := by
  induction l with
  | nil =>
    intro s thr tw _ s1 tw1 d heq
    have h2 : (some (s, tw, false) : Option (SignState × Nat × Bool)) =
      some (s1, tw1, d) := heq
    have h3 := Option.some.inj h2
    injection h3 with h4 h5
    injection h5 with h6 h7
    exact ⟨h7.symm, h6 ▸ Nat.le_add_right _ _⟩
  | cons p rest ih =>
    intro s thr tw h s1 tw1 d heq
    obtain ⟨a, w⟩ := p
    have hws : wsum ((a, w) :: rest) = w + wsum rest := rfl
    rw [hws] at h
    have hle1 : (tw + w) % 4294967296 ≤ tw + w := Nat.mod_le _ _
    rcases hsb : signed_by_address s a with _ | ⟨s2, b⟩
    · simp only [addr_loop, hsb] at heq
      exact Option.noConfusion heq
    · cases b with
      | false =>
        simp only [addr_loop, hsb] at heq
        obtain ⟨hd, hle⟩ := ih s2 thr tw (by omega) s1 tw1 d heq
        exact ⟨hd, by rw [hws]; omega⟩
      | true =>
        simp only [addr_loop, hsb,
          if_neg (show ¬ thr ≤ (tw + w) % 4294967296 by omega)] at heq
        obtain ⟨hd, hle⟩ := ih s2 thr ((tw + w) % 4294967296) (by omega)
          s1 tw1 d heq
        exact ⟨hd, by rw [hws]; omega⟩

theorem account_loop_bound (l : List (Nat × Nat)) :
    ∀ (check : Option (SignState → Option Authority →
        Option (SignState × Bool)))
      (s : SignState) (thr tw : Nat), tw + wsum l < thr →
    ∀ s1 tw1 d, account_loop check s thr tw l = some (s1, tw1, d) →
      d = false ∧ tw1 ≤ tw + wsum l := by
  induction l with
  | nil =>
    intro check s thr tw _ s1 tw1 d heq
    have h2 : (some (s, tw, false) : Option (SignState × Nat × Bool)) =
      some (s1, tw1, d) := heq
    have h3 := Option.some.inj h2
    injection h3 with h4 h5
    injection h5 with h6 h7
    exact ⟨h7.symm, h6 ▸ Nat.le_add_right _ _⟩
  | cons p rest ih =>
    intro check s thr tw h s1 tw1 d heq
    obtain ⟨a, w⟩ := p
    have hws : wsum ((a, w) :: rest) = w + wsum rest := rfl
    rw [hws] at h
    have hle1 : (tw + w) % 4294967296 ≤ tw + w := Nat.mod_le _ _
    by_cases hap : a ∈ s.approved_by
    · simp only [account_loop, if_pos hap,
        if_neg (show ¬ thr ≤ (tw + w) % 4294967296 by omega)] at heq
      obtain ⟨hd, hle⟩ := ih check s thr ((tw + w) % 4294967296) (by omega)
        s1 tw1 d heq
      exact ⟨hd, by rw [hws]; omega⟩
    · rcases check with _ | chk
      · simp only [account_loop, if_neg hap] at heq
        obtain ⟨hd, hle⟩ := ih none s thr tw (by omega) s1 tw1 d heq
        exact ⟨hd, by rw [hws]; omega⟩
      · rcases hca : chk s (s.get_active a) with _ | ⟨sA, bA⟩
        · simp only [account_loop, if_neg hap, hca] at heq
          exact Option.noConfusion heq
        · cases bA with
          | true =>
            simp only [account_loop, if_neg hap, hca,
              if_neg (show ¬ thr ≤ (tw + w) % 4294967296 by omega)] at heq
            obtain ⟨hd, hle⟩ := ih (some chk)
              { sA with approved_by := insertSet sA.approved_by a } thr
              ((tw + w) % 4294967296) (by omega) s1 tw1 d heq
            exact ⟨hd, by rw [hws]; omega⟩
          | false =>
            by_cases how : sA.allow_non_immediate_owner
            · rcases hco : chk sA (sA.get_owner a) with _ | ⟨sO, bO⟩
              · simp only [account_loop, if_neg hap, hca, if_pos how,
                  hco] at heq
                exact Option.noConfusion heq
              · cases bO with
                | true =>
                  simp only [account_loop, if_neg hap, hca, if_pos how, hco,
                    if_neg (show ¬ thr ≤ (tw + w) % 4294967296 by
                      omega)] at heq
                  obtain ⟨hd, hle⟩ := ih (some chk)
                    { sO with approved_by := insertSet sO.approved_by a } thr
                    ((tw + w) % 4294967296) (by omega) s1 tw1 d heq
                  exact ⟨hd, by rw [hws]; omega⟩
                | false =>
                  simp only [account_loop, if_neg hap, hca, if_pos how,
                    hco] at heq
                  obtain ⟨hd, hle⟩ := ih (some chk) sO thr tw (by omega)
                    s1 tw1 d heq
                  exact ⟨hd, by rw [hws]; omega⟩
            · simp only [account_loop, if_neg hap, hca, if_neg how] at heq
              obtain ⟨hd, hle⟩ := ih (some chk) sA thr tw (by omega)
                s1 tw1 d heq
              exact ⟨hd, by rw [hws]; omega⟩

theorem checkAuthorityCore_zero_threshold
    (deeper : Option (SignState → Option Authority →
      Option (SignState × Bool)))
    (s : SignState) (auth : Authority) (hthr : auth.weight_threshold = 0)
    (r : SignState × Bool)
    (h : checkAuthorityCore deeper s (some auth) = some r) : r.2 = true := by
  simp only [checkAuthorityCore] at h
  split at h
  · rw [← Option.some.inj h]
  · split at h
    · exact Option.noConfusion h
    · rw [← Option.some.inj h]
    · split at h
      · exact Option.noConfusion h
      · rw [← Option.some.inj h]
      · rw [← Option.some.inj h]
        simp [hthr]

/-- C5: for a non-null authority with `weight_threshold = 0`, every
defined evaluation of `check_authority` returns `true`, for every state
(hence any signature set) and every depth budget; but the claim's
unconditional form fails on the code: with an `address_auths` entry whose
address resolves in neither reconciliation table, evaluation reaches the
undefined end-iterator dereference of `signed_by(address)` (first
conjunct, the concrete failing input — a threshold-0 authority whose
evaluation does not return at all). -/
theorem check_authority_zero_threshold :
    (check_authority 0 (mkSignState [] noAuth noAuth true 2 [])
        (some ⟨0, [], [(Address.direct 99, 1)], []⟩) = none) ∧
    ((⟨0, [], [(Address.direct 99, 1)], []⟩ : Authority).weight_threshold
        = 0) ∧
    (∀ (auth : Authority) (s : SignState) (fuel : Nat),
      auth.weight_threshold = 0 →
      (check_authority fuel s (some auth)).isSome = true →
      Option.map Prod.snd (check_authority fuel s (some auth)) =
        some true) := by
  refine ⟨rfl, rfl, ?_⟩
  intro auth s fuel hthr hsome
  rcases Option.isSome_iff_exists.mp hsome with ⟨r, hr⟩
  rw [hr]
  have hb : r.2 = true := by
    cases fuel with
    | zero => exact checkAuthorityCore_zero_threshold none s auth hthr r hr
    | succ f =>
      exact checkAuthorityCore_zero_threshold (some (check_authority f)) s
        auth hthr r hr
  rw [Option.map_some', hb]

/-- Witness for C5's defined-evaluation part: a threshold-0 authority
with no entries evaluates to `true` on the empty-signature state. -/
theorem check_authority_zero_threshold_witness :
    Option.map Prod.snd (check_authority 0
        (mkSignState [] noAuth noAuth true 2 [])
        (some ⟨0, [], [], []⟩)) = some true :=
  check_authority_zero_threshold.2.2 ⟨0, [], [], []⟩
    (mkSignState [] noAuth noAuth true 2 []) 0 rfl rfl

theorem checkAuthorityCore_unsatisfiable
    (deeper : Option (SignState → Option Authority →
      Option (SignState × Bool)))
    (s : SignState) (auth : Authority)
    (hsum : authWeightSum auth < auth.weight_threshold)
    (r : SignState × Bool)
    (h : checkAuthorityCore deeper s (some auth) = some r) : r.2 = false := by
  simp only [checkAuthorityCore] at h
  unfold authWeightSum at hsum
  rcases key_loop_bound auth.key_auths s auth.weight_threshold 0
    (by omega) with ⟨s1, tw1, hkeq, hkle⟩
  split at h
  · rename_i sx twx hkx
    rw [hkeq] at hkx
    injection hkx with h4 h5
    injection h5 with h6 h7
    exact Bool.noConfusion h7
  · rename_i sx twx hkx
    rw [hkeq] at hkx
    injection hkx with h4 h5
    injection h5 with h6 h7
    subst h4
    subst h6
    split at h
    · exact Option.noConfusion h
    · rename_i s2 tw2 ha
      obtain ⟨hd2, _⟩ := addr_loop_bound auth.address_auths s1
        auth.weight_threshold tw1 (by omega) s2 tw2 true ha
      exact Bool.noConfusion hd2
    · rename_i s2 tw2 ha
      obtain ⟨_, hle2⟩ := addr_loop_bound auth.address_auths s1
        auth.weight_threshold tw1 (by omega) s2 tw2 false ha
      split at h
      · exact Option.noConfusion h
      · rename_i s3 tw3 hc
        obtain ⟨hd3, _⟩ := account_loop_bound auth.account_auths deeper s2
          auth.weight_threshold tw2 (by omega) s3 tw3 true hc
        exact Bool.noConfusion hd3
      · rename_i s3 tw3 hc
        obtain ⟨_, hle3⟩ := account_loop_bound auth.account_auths deeper s2
          auth.weight_threshold tw2 (by omega) s3 tw3 false hc
        rw [← Option.some.inj h]
        simp only [decide_eq_false_iff_not, Nat.not_le]
        omega

/-- C6: for an authority whose summed listed weights are strictly below
its threshold, every defined evaluation of `check_authority` returns
`false` — for every state, in particular when every key is provided and
every delegate approved; but the claim's unconditional form fails on the
code: with an `address_auths` entry whose address resolves in neither
reconciliation table, evaluation reaches the undefined end-iterator
dereference of `signed_by(address)` (first conjunct: a concrete
unsatisfiable authority whose key is provided, yet evaluation does not
return at all). -/
theorem check_authority_unsatisfiable :
    (check_authority 5 (mkSignState [1] noAuth noAuth true 2 [])
        (some ⟨3, [(1, 1)], [(Address.direct 99, 1)], []⟩) = none) ∧
    (authWeightSum ⟨3, [(1, 1)], [(Address.direct 99, 1)], []⟩ <
        (⟨3, [(1, 1)], [(Address.direct 99, 1)], []⟩ :
          Authority).weight_threshold) ∧
    (∀ (auth : Authority) (s : SignState) (fuel : Nat),
      authWeightSum auth < auth.weight_threshold →
      (check_authority fuel s (some auth)).isSome = true →
      Option.map Prod.snd (check_authority fuel s (some auth)) =
        some false) := by
  refine ⟨rfl, by decide, ?_⟩
  intro auth s fuel hsum hsome
  rcases Option.isSome_iff_exists.mp hsome with ⟨r, hr⟩
  rw [hr]
  have hb : r.2 = false := by
    cases fuel with
    | zero => exact checkAuthorityCore_unsatisfiable none s auth hsum r hr
    | succ f =>
      exact checkAuthorityCore_unsatisfiable (some (check_authority f)) s
        auth hsum r hr
  rw [Option.map_some', hb]

/-- Witness for C6's defined-evaluation part: an authority of threshold 2
whose only listed weight is 1 evaluates to `false` even though its key 1
is a provided signature. -/
theorem check_authority_unsatisfiable_witness :
    Option.map Prod.snd (check_authority 2
        (mkSignState [1] noAuth noAuth true 2 [])
        (some ⟨2, [(1, 1)], [], []⟩)) = some false :=
  check_authority_unsatisfiable.2.2 ⟨2, [(1, 1)], [], []⟩
    (mkSignState [1] noAuth noAuth true 2 []) 2 (by decide) rfl

/-! ### C2 — the recursion bound on delegation chains -/

theorem check_authority_eq (f : Nat) (s : SignState) (au : Option Authority) :
    check_authority f s au =
      checkAuthorityCore
        (match f with
          | 0 => none
          | g + 1 => some (check_authority g)) s au := by
  cases f <;> rfl

/-- The account-delegation chain family: account `10 + r` needs `r`
delegation hops to reach the key `K` (account 10 holds the key directly;
every account above it delegates to the one below, each with threshold 1
and weight 1). -/
def chainGet (K : Nat) : Nat → Option Authority := fun j =>
  if j < 10 then none
  else if j = 10 then some ⟨1, [(K, 1)], [], []⟩
  else some ⟨1, [], [], [(j - 1, 1)]⟩

theorem chain_success (K : Nat) :
    ∀ (r f : Nat), r ≤ f → ∀ (s : SignState) (b : Bool),
    s.get_active = chainGet K →
    lookupMap s.provided_signatures K = some b →
    (∀ j, 10 ≤ j → j ∉ s.approved_by) →
    ∃ s1, check_authority f s (chainGet K (10 + r)) = some (s1, true) := by
  intro r
  induction r with
  | zero =>
    intro f _ s b hA hK hAp
    have hca : chainGet K (10 + 0) = some ⟨1, [(K, 1)], [], []⟩ := by
      unfold chainGet
      norm_num
    have hsb : signed_by s K =
        ({ s with provided_signatures :=
            setMap s.provided_signatures K true }, true) := by
      simp [signed_by, hK]
    refine ⟨(signed_by s K).1, ?_⟩
    rw [hca, check_authority_eq]
    simp only [checkAuthorityCore, key_loop, hsb]
    norm_num
  | succ r ih =>
    intro f hf s b hA hK hAp
    rcases f with _ | g
    · omega
    have hca : chainGet K (10 + (r + 1)) = some ⟨1, [], [], [(10 + r, 1)]⟩ := by
      unfold chainGet
      rw [if_neg (by omega), if_neg (by omega)]
      have harith : 10 + (r + 1) - 1 = 10 + r := by omega
      rw [harith]
    rcases ih g (by omega) s b hA hK hAp with ⟨sA, hchk⟩
    have hap : 10 + r ∉ s.approved_by := hAp (10 + r) (by omega)
    refine ⟨{ sA with approved_by := insertSet sA.approved_by (10 + r) }, ?_⟩
    rw [hca, check_authority_eq]
    simp only [checkAuthorityCore, key_loop, addr_loop, account_loop,
      if_neg hap, hA, hchk]
    norm_num

theorem chain_failure (K : Nat) :
    ∀ (f r : Nat), f < r → ∀ (s : SignState),
    s.get_active = chainGet K →
    s.get_owner = (fun _ => none) →
    (∀ j, 10 ≤ j → j ∉ s.approved_by) →
    check_authority f s (chainGet K (10 + r)) = some (s, false) := by
  intro f
  induction f with
  | zero =>
    intro r hr s hA hO hAp
    have hca : chainGet K (10 + r) =
        some ⟨1, [], [], [(10 + r - 1, 1)]⟩ := by
      unfold chainGet
      rw [if_neg (by omega), if_neg (by omega)]
    have hap : 10 + r - 1 ∉ s.approved_by := hAp (10 + r - 1) (by omega)
    rw [hca, check_authority_eq]
    simp only [checkAuthorityCore, key_loop, addr_loop, account_loop,
      if_neg hap]
    norm_num
  | succ g ihf =>
    intro r hr s hA hO hAp
    have hca : chainGet K (10 + r) =
        some ⟨1, [], [], [(10 + (r - 1), 1)]⟩ := by
      unfold chainGet
      rw [if_neg (by omega), if_neg (by omega)]
      have harith : 10 + r - 1 = 10 + (r - 1) := by omega
      rw [harith]
    have hap : 10 + (r - 1) ∉ s.approved_by := hAp (10 + (r - 1)) (by omega)
    have hchk : check_authority g s (chainGet K (10 + (r - 1))) =
        some (s, false) := ihf (r - 1) (by omega) s hA hO hAp
    have hnone : check_authority g s none = some (s, false) := by
      rw [check_authority_eq]
      simp only [checkAuthorityCore]
    rw [hca, check_authority_eq]
    by_cases how : s.allow_non_immediate_owner
    · simp only [checkAuthorityCore, key_loop, addr_loop, account_loop,
        if_neg hap, hA, hchk, if_pos how, hO, hnone]
      norm_num
    · simp only [checkAuthorityCore, key_loop, addr_loop, account_loop,
        if_neg hap, hA, hchk, if_neg how]
      norm_num

/-- C2: on the canonical delegation chain whose only sufficient signing
key sits at the deepest level, `check_authority` starting at depth 0
(depth budget `max_recursion`) succeeds when the chain needs exactly
`max_recursion` hops, and returns `false` — without raising any error —
when it needs `max_recursion + 1` hops, because the last delegate is
silently skipped at the depth bound. -/
theorem check_authority_recursion_bound (s : SignState) (K : Nat) (b : Bool)
    (hA : s.get_active = chainGet K)
    (hO : s.get_owner = (fun _ => none))
    (hK : lookupMap s.provided_signatures K = some b)
    (hAp : ∀ j, 10 ≤ j → j ∉ s.approved_by) :
    (Option.map Prod.snd (check_authority s.max_recursion s
        (chainGet K (10 + s.max_recursion))) = some true) ∧
    (check_authority s.max_recursion s
        (chainGet K (10 + (s.max_recursion + 1))) = some (s, false)) := by
  constructor
  · rcases chain_success K s.max_recursion s.max_recursion (Nat.le_refl _)
      s b hA hK hAp with ⟨s1, h1⟩
    rw [h1, Option.map_some']
  · exact chain_failure K s.max_recursion (s.max_recursion + 1)
      (Nat.lt_succ_self _) s hA hO hAp

/-- The chain state of the C2 witness: key 1 provided, accessors bound to
the chain family, recursion bound 2. -/
def c2state : SignState := mkSignState [1] (chainGet 1) noAuth false 2 []

/-- Witness for C2 at `max_recursion = 2`: the 2-hop chain (account 12)
verifies, the 3-hop chain (account 13) fails silently. -/
theorem check_authority_recursion_bound_witness :
    (Option.map Prod.snd (check_authority c2state.max_recursion c2state
        (chainGet 1 (10 + c2state.max_recursion))) = some true) ∧
    (check_authority c2state.max_recursion c2state
        (chainGet 1 (10 + (c2state.max_recursion + 1))) =
      some (c2state, false)) :=
  check_authority_recursion_bound c2state 1 false rfl rfl rfl
    (by
      intro j hj hmem
      have : j = 4 := by
        have h4 : c2state.approved_by = [4] := rfl
        rw [h4] at hmem
        simpa using hmem
      omega)

/-! ### C8 — approved_by only grows and memoizes -/

theorem signed_by_approved (s : SignState) (k : Nat) :
    (signed_by s k).1.approved_by = s.approved_by := by
  unfold signed_by
  split <;> first
    | rfl
    | (split <;> rfl)

theorem ensureTables_approved (s : SignState) :
    (ensureTables s).approved_by = s.approved_by := by
  unfold ensureTables
  split <;> rfl

theorem signed_by_address_approved (s : SignState) (a : Address)
    (r : SignState × Bool) (h : signed_by_address s a = some r) :
    r.1.approved_by = s.approved_by := by
  simp only [signed_by_address] at h
  split at h
  · rw [← Option.some.inj h]
    exact ensureTables_approved s
  · split at h
    · split at h
      · rw [← Option.some.inj h]
        exact ensureTables_approved s
      · rw [← Option.some.inj h]
        exact ensureTables_approved s
    · exact Option.noConfusion h

theorem key_loop_approved (l : List (Nat × Nat)) :
    ∀ (s : SignState) (thr tw : Nat),
    (key_loop s thr tw l).1.approved_by = s.approved_by := by
  induction l with
  | nil => intro s thr tw; rfl
  | cons p rest ih =>
    intro s thr tw
    obtain ⟨k, w⟩ := p
    rcases hsb : signed_by s k with ⟨s1, b⟩
    have he : s1.approved_by = s.approved_by := by
      have h2 := signed_by_approved s k
      rw [hsb] at h2
      exact h2
    cases b with
    | false =>
      simp only [key_loop, hsb]
      rw [ih s1 thr tw, he]
    | true =>
      simp only [key_loop, hsb]
      by_cases hc : thr ≤ (tw + w) % 4294967296
      · rw [if_pos hc]
        exact he
      · rw [if_neg hc]
        rw [ih s1 thr ((tw + w) % 4294967296), he]

theorem addr_loop_approved (l : List (Address × Nat)) :
    ∀ (s : SignState) (thr tw : Nat) (s1 : SignState) (tw1 : Nat) (d : Bool),
    addr_loop s thr tw l = some (s1, tw1, d) →
    s1.approved_by = s.approved_by := by
  induction l with
  | nil =>
    intro s thr tw s1 tw1 d heq
    have h2 : (some (s, tw, false) : Option (SignState × Nat × Bool)) =
      some (s1, tw1, d) := heq
    have h3 := Option.some.inj h2
    injection h3 with h4 h5
    rw [← h4]
  | cons p rest ih =>
    intro s thr tw s1 tw1 d heq
    obtain ⟨a, w⟩ := p
    rcases hsb : signed_by_address s a with _ | ⟨s2, b⟩
    · simp only [addr_loop, hsb] at heq
      exact Option.noConfusion heq
    · have he : s2.approved_by = s.approved_by :=
        signed_by_address_approved s a (s2, b) hsb
      cases b with
      | false =>
        simp only [addr_loop, hsb] at heq
        rw [ih s2 thr tw s1 tw1 d heq, he]
      | true =>
        simp only [addr_loop, hsb] at heq
        by_cases hc : thr ≤ (tw + w) % 4294967296
        · rw [if_pos hc] at heq
          have h3 := Option.some.inj heq
          injection h3 with h4 h5
          rw [← h4, he]
        · rw [if_neg hc] at heq
          rw [ih s2 thr ((tw + w) % 4294967296) s1 tw1 d heq, he]

theorem account_loop_approved_mono (l : List (Nat × Nat)) :
    ∀ (check : Option (SignState → Option Authority →
        Option (SignState × Bool))),
    (∀ chk, check = some chk → ∀ (s : SignState) (au : Option Authority)
      (r : SignState × Bool), chk s au = some r →
      ∀ x ∈ s.approved_by, x ∈ r.1.approved_by) →
    ∀ (s : SignState) (thr tw : Nat) (s1 : SignState) (tw1 : Nat) (d : Bool),
    account_loop check s thr tw l = some (s1, tw1, d) →
    ∀ x ∈ s.approved_by, x ∈ s1.approved_by := by
  induction l with
  | nil =>
    intro check _ s thr tw s1 tw1 d heq
    have h2 : (some (s, tw, false) : Option (SignState × Nat × Bool)) =
      some (s1, tw1, d) := heq
    have h3 := Option.some.inj h2
    injection h3 with h4 h5
    rw [← h4]
    exact fun x hx => hx
  | cons p rest ih =>
    intro check hchk s thr tw s1 tw1 d heq
    obtain ⟨a, w⟩ := p
    by_cases hap : a ∈ s.approved_by
    · by_cases hc : thr ≤ (tw + w) % 4294967296
      · simp only [account_loop, if_pos hap, if_pos hc] at heq
        have h3 := Option.some.inj heq
        injection h3 with h4 h5
        rw [← h4]
        exact fun x hx => hx
      · simp only [account_loop, if_pos hap, if_neg hc] at heq
        exact ih check hchk s thr ((tw + w) % 4294967296) s1 tw1 d heq
    · rcases check with _ | chk
      · simp only [account_loop, if_neg hap] at heq
        exact ih none (fun chk hc => Option.noConfusion hc) s thr tw
          s1 tw1 d heq
      · rcases hca : chk s (s.get_active a) with _ | ⟨sA, bA⟩
        · simp only [account_loop, if_neg hap, hca] at heq
          exact Option.noConfusion heq
        · have hmA : ∀ x ∈ s.approved_by, x ∈ sA.approved_by :=
            hchk chk rfl s (s.get_active a) (sA, bA) hca
          cases bA with
          | true =>
            by_cases hc : thr ≤ (tw + w) % 4294967296
            · simp only [account_loop, if_neg hap, hca, if_pos hc] at heq
              have h3 := Option.some.inj heq
              injection h3 with h4 h5
              rw [← h4]
              intro x hx
              exact subset_insertSet sA.approved_by a (hmA x hx)
            · simp only [account_loop, if_neg hap, hca, if_neg hc] at heq
              intro x hx
              exact ih (some chk) hchk _ thr ((tw + w) % 4294967296)
                s1 tw1 d heq x (subset_insertSet sA.approved_by a (hmA x hx))
          | false =>
            by_cases how : sA.allow_non_immediate_owner
            · rcases hco : chk sA (sA.get_owner a) with _ | ⟨sO, bO⟩
              · simp only [account_loop, if_neg hap, hca, if_pos how,
                  hco] at heq
                exact Option.noConfusion heq
              · have hmO : ∀ x ∈ sA.approved_by, x ∈ sO.approved_by :=
                  hchk chk rfl sA (sA.get_owner a) (sO, bO) hco
                cases bO with
                | true =>
                  by_cases hc : thr ≤ (tw + w) % 4294967296
                  · simp only [account_loop, if_neg hap, hca, if_pos how,
                      hco, if_pos hc] at heq
                    have h3 := Option.some.inj heq
                    injection h3 with h4 h5
                    rw [← h4]
                    intro x hx
                    exact subset_insertSet sO.approved_by a
                      (hmO x (hmA x hx))
                  · simp only [account_loop, if_neg hap, hca, if_pos how,
                      hco, if_neg hc] at heq
                    intro x hx
                    exact ih (some chk) hchk _ thr ((tw + w) % 4294967296)
                      s1 tw1 d heq x
                      (subset_insertSet sO.approved_by a (hmO x (hmA x hx)))
                | false =>
                  simp only [account_loop, if_neg hap, hca, if_pos how,
                    hco] at heq
                  intro x hx
                  exact ih (some chk) hchk sO thr tw s1 tw1 d heq x
                    (hmO x (hmA x hx))
            · simp only [account_loop, if_neg hap, hca, if_neg how] at heq
              intro x hx
              exact ih (some chk) hchk sA thr tw s1 tw1 d heq x (hmA x hx)

theorem checkAuthorityCore_approved_mono
    (deeper : Option (SignState → Option Authority →
      Option (SignState × Bool)))
    (hd : ∀ chk, deeper = some chk → ∀ (s : SignState) (au : Option Authority)
      (r : SignState × Bool), chk s au = some r →
      ∀ x ∈ s.approved_by, x ∈ r.1.approved_by)
    (s : SignState) (au : Option Authority) (r : SignState × Bool)
    (h : checkAuthorityCore deeper s au = some r) :
    ∀ x ∈ s.approved_by, x ∈ r.1.approved_by := by
  cases au with
  | none =>
    have h2 : (some (s, false) : Option (SignState × Bool)) = some r := h
    rw [← Option.some.inj h2]
    exact fun x hx => hx
  | some auth =>
    simp only [checkAuthorityCore] at h
    split at h
    · rename_i s1 tw1 hk
      have he : s1.approved_by = s.approved_by := by
        have h2 := key_loop_approved auth.key_auths s auth.weight_threshold 0
        rw [hk] at h2
        exact h2
      rw [← Option.some.inj h]
      intro x hx
      show x ∈ s1.approved_by
      rw [he]
      exact hx
    · rename_i s1 tw1 hk
      have he1 : s1.approved_by = s.approved_by := by
        have h2 := key_loop_approved auth.key_auths s auth.weight_threshold 0
        rw [hk] at h2
        exact h2
      split at h
      · exact Option.noConfusion h
      · rename_i s2 tw2 ha
        have he2 : s2.approved_by = s1.approved_by :=
          addr_loop_approved auth.address_auths s1 auth.weight_threshold tw1
            s2 tw2 true ha
        rw [← Option.some.inj h]
        intro x hx
        show x ∈ s2.approved_by
        rw [he2, he1]
        exact hx
      · rename_i s2 tw2 ha
        have he2 : s2.approved_by = s1.approved_by :=
          addr_loop_approved auth.address_auths s1 auth.weight_threshold tw1
            s2 tw2 false ha
        split at h
        · exact Option.noConfusion h
        · rename_i s3 tw3 hc
          have hm := account_loop_approved_mono auth.account_auths deeper hd
            s2 auth.weight_threshold tw2 s3 tw3 true hc
          rw [← Option.some.inj h]
          intro x hx
          show x ∈ s3.approved_by
          exact hm x (by rw [he2, he1]; exact hx)
        · rename_i s3 tw3 hc
          have hm := account_loop_approved_mono auth.account_auths deeper hd
            s2 auth.weight_threshold tw2 s3 tw3 false hc
          rw [← Option.some.inj h]
          intro x hx
          show x ∈ s3.approved_by
          exact hm x (by rw [he2, he1]; exact hx)

theorem check_authority_approved_mono (f : Nat) :
    ∀ (s : SignState) (au : Option Authority) (r : SignState × Bool),
    check_authority f s au = some r →
    ∀ x ∈ s.approved_by, x ∈ r.1.approved_by := by
  induction f with
  | zero =>
    intro s au r h
    exact checkAuthorityCore_approved_mono none
      (fun chk hc => Option.noConfusion hc) s au r h
  | succ g ih =>
    intro s au r h
    refine checkAuthorityCore_approved_mono (some (check_authority g))
      ?_ s au r h
    intro chk hc
    rw [← Option.some.inj hc]
    exact ih

/-- C8: within one `sign_state`'s lifetime the `approved_by` set only
grows — `signed_by` (both forms) and `remove_unused_signatures` leave it
unchanged and `check_authority` only extends it — and once an account id
is in `approved_by`, `check_authority(account_id)` returns `true`
immediately with no state change, and the `account_auths` loop adds the
delegate's weight directly, without consulting the deeper check (hence
without re-invoking the authority accessors for that account). -/
theorem approved_by_monotone_and_memoized :
    (∀ (s : SignState) (k : Nat),
      (signed_by s k).1.approved_by = s.approved_by) ∧
    (∀ (s : SignState) (a : Address) (r : SignState × Bool),
      signed_by_address s a = some r →
      r.1.approved_by = s.approved_by) ∧
    (∀ s : SignState,
      (remove_unused_signatures s).1.approved_by = s.approved_by) ∧
    (∀ (f : Nat) (s : SignState) (au : Option Authority)
      (r : SignState × Bool), check_authority f s au = some r →
      ∀ x ∈ s.approved_by, x ∈ r.1.approved_by) ∧
    (∀ (s : SignState) (id : Nat), id ∈ s.approved_by →
      check_authority_acct s id = some (s, true)) ∧
    (∀ (check : Option (SignState → Option Authority →
        Option (SignState × Bool)))
      (s : SignState) (thr tw a w : Nat) (rest : List (Nat × Nat)),
      a ∈ s.approved_by →
      account_loop check s thr tw ((a, w) :: rest) =
        if thr ≤ (tw + w) % 4294967296 then
          some (s, (tw + w) % 4294967296, true)
        else account_loop check s thr ((tw + w) % 4294967296) rest) := by
  refine ⟨signed_by_approved, signed_by_address_approved, fun s => rfl,
    check_authority_approved_mono, ?_, ?_⟩
  · intro s id h
    unfold check_authority_acct
    rw [if_pos h]
  · intro check s thr tw a w rest h
    simp only [account_loop, if_pos h]

/-- Witness for C8: the constructor-approved `GRAPHENE_TEMP_ACCOUNT`
passes the account-id check immediately on a fresh state, and an approved
delegate contributes its weight in the account loop without any deeper
check available. -/
theorem approved_by_monotone_and_memoized_witness :
    check_authority_acct (mkSignState [] noAuth noAuth true 2 []) 4 =
      some (mkSignState [] noAuth noAuth true 2 [], true) ∧
    account_loop none (mkSignState [] noAuth noAuth true 2 []) 1 0
        [(4, 1)] =
      some (mkSignState [] noAuth noAuth true 2 [], (0 + 1) % 4294967296,
        true) :=
  ⟨approved_by_monotone_and_memoized.2.2.2.2.1
      (mkSignState [] noAuth noAuth true 2 []) 4 (by decide),
   by
    rw [approved_by_monotone_and_memoized.2.2.2.2.2 none
      (mkSignState [] noAuth noAuth true 2 []) 1 0 4 1 [] (by decide)]
    rfl⟩

end Graphene
